import Mathlib

/-!
Verification of the deduplication / persistence core of
`github_trending.py` (class `GitHubTrending`), as a shallow embedding.

File model.  A single-column CSV store is a `CsvFile`: the `bom` flag
records whether the file starts with a UTF-8 byte-order mark (it was
created by `save_to_csv` with `encoding='utf-8-sig'`, line 268), and
`lines` holds one string per CSV record — the record's single field.
`none : Option CsvFile` is an absent file.  A file has size zero exactly
when it has no BOM and no lines (`file_size_zero`).

Reading.  `_load_blocklist` opens files with plain `encoding='utf-8'`
(line 181), which does NOT strip a BOM: the character U+FEFF stays glued
to the front of the first field.  `read_fields` models exactly that.
CPython facts embedded here: `str.strip()` does not remove U+FEFF (it is
not whitespace), and `'x'.lower()` leaves U+FEFF alone; for the ASCII
data handled by this program, `py_strip` / `py_lower` agree with
`str.strip()` / `str.lower()`.  An empty CSV row (`if not row`) and a
row whose first field strips to the empty string are both skipped, so
the model folds them into one case (field strips to `""`).

Records.  A scraped record (`repo` dict) is modelled by `Repo`: its
`url` field (`none` when the key is missing; `repo.get('url')` then
yields Python `None`, and `if not url_value` also rejects `""`), plus an
opaque `aux` component standing for the remaining metadata.
-/

/-- Python `str.strip()` restricted to the ASCII whitespace that occurs in
this program's data: drop whitespace from both ends. -/
def py_strip (s : String) : String :=
  ⟨((s.data.dropWhile Char.isWhitespace).reverse.dropWhile Char.isWhitespace).reverse⟩

/-- Python `str.lower()`: lower-case every character. -/
def py_lower (s : String) : String :=
  ⟨s.data.map Char.toLower⟩

/-- One scraped record: the `url` field (absent = `none`) and the rest of
the dict, irrelevant to deduplication. -/
structure Repo where
  url : Option String
  aux : String
deriving DecidableEq, Repr

/-- A single-column CSV file: BOM flag plus one field per record line. -/
structure CsvFile where
  bom : Bool
  lines : List String
deriving DecidableEq, Repr

/-- The UTF-8 byte-order mark as the character U+FEFF. -/
def bom_str : String := "﻿"

/-- Size-zero test: `path.stat().st_size == 0` — true exactly when the
file holds neither BOM bytes nor any record line. -/
def file_size_zero (c : CsvFile) : Bool :=
  !c.bom && c.lines.isEmpty

/-- `file_empty` of `save_to_csv` (line 264): the file does not exist, or
it exists with size zero. -/
def file_empty (fs : Option CsvFile) : Bool :=
  match fs with
  | none => true
  | some c => file_size_zero c

/-- The fields produced by reading a `CsvFile` with `encoding='utf-8'`:
a BOM is not stripped, so U+FEFF prefixes the first field (a BOM-only
file reads as the single field U+FEFF). -/
def read_fields : CsvFile → List String
  | ⟨false, ls⟩ => ls
  | ⟨true, []⟩ => [bom_str]
  | ⟨true, l :: ls⟩ => (bom_str ++ l) :: ls

/-- The row loop of `_load_blocklist` (lines 183-191): skip rows whose
field strips to empty; skip a row stripping (case-insensitively) to
`"url"` while the accumulated set is still empty; otherwise add the
stripped field to the set.  The Python `set` is modelled as a duplicate-
free list, newest element first. -/
def load_rows : List String → List String → List String
  | [], blocklist => blocklist
  | row :: rest, blocklist =>
    if py_strip row = "" then
      load_rows rest blocklist
    else if py_lower (py_strip row) = "url" ∧ blocklist = [] then
      load_rows rest blocklist
    else if py_strip row ∈ blocklist then
      load_rows rest blocklist
    else
      load_rows rest (py_strip row :: blocklist)

/-- `_load_blocklist` (lines 165-195) on the state of the file it is
pointed at: absent file gives the empty set, otherwise the row loop runs
over the fields a utf-8 read yields.  (The `except OSError` arm is
modelled separately, in `load_blocklist_outcome`.) -/
def _load_blocklist (fs : Option CsvFile) : List String :=
  match fs with
  | none => []
  | some c => load_rows (read_fields c) []

/-- The filtering loop of `get_trending` (lines 90-103): drop a record
whose url is missing or empty, drop it when the url is in
`existed_urls` or was already seen in this batch, otherwise keep the
record and remember its url. -/
def filter_repositories (existed_urls : List String) :
    List Repo → List String → List Repo
  | [], _ => []
  | repo :: rest, seen_in_batch =>
    match repo.url with
    | none => filter_repositories existed_urls rest seen_in_batch
    | some u =>
      if u = "" then
        filter_repositories existed_urls rest seen_in_batch
      else if u ∈ existed_urls then
        filter_repositories existed_urls rest seen_in_batch
      else if u ∈ seen_in_batch then
        filter_repositories existed_urls rest seen_in_batch
      else
        repo :: filter_repositories existed_urls rest (u :: seen_in_batch)

/-- The within-batch dedup loop of `save_to_csv` (lines 247-257): keep
the url of each record whose url is present, non-empty and not yet seen
in this batch.  (The Python code rebuilds `{"url": url_val}` dicts and
later writes only `item['url']`, so the model keeps the urls.) -/
def unique_data : List Repo → List String → List String
  | [], _ => []
  | item :: rest, batch_seen =>
    match item.url with
    | none => unique_data rest batch_seen
    | some u =>
      if u = "" then
        unique_data rest batch_seen
      else if u ∈ batch_seen then
        unique_data rest batch_seen
      else
        u :: unique_data rest (u :: batch_seen)

/-- `save_to_csv` (lines 230-276) as a state transformer on the output
file; the boolean is true exactly when a write happened (false on the
`没有数据可保存` / `没有新的数据可写入` early returns).  A fresh file
(absent or size zero) is written in mode `'w'` with `utf-8-sig`, so it
gets a BOM and exactly the deduplicated urls as lines; a populated file
is opened in mode `'a'` with `utf-8`, so its bytes are untouched and the
deduplicated urls are appended. -/
def save_to_csv (data : List Repo) (fs : Option CsvFile) :
    Option CsvFile × Bool :=
  if data.isEmpty then (fs, false)
  else
    let unique := unique_data data []
    if unique.isEmpty then (fs, false)
    else
      match fs with
      | none => (some ⟨true, unique⟩, true)
      | some c =>
        if file_size_zero c then (some ⟨true, unique⟩, true)
        else (some ⟨c.bom, c.lines ++ unique⟩, true)

/-- `add_to_blocklist` (lines 197-228) as a state transformer on the
blocklist file: no-op on a value stripping to empty, no-op when the
stripped value is already in the loaded blocklist, otherwise open in
mode `'a'` with `encoding='utf-8'` (creating the file BOM-free when
absent), write a `url` header row first when the file is absent or has
size zero, then write the stripped value as one row. -/
def add_to_blocklist (value : String) (fs : Option CsvFile) :
    Option CsvFile :=
  if py_strip value = "" then fs
  else if py_strip value ∈ _load_blocklist fs then fs
  else
    match fs with
    | none => some ⟨false, ["url", py_strip value]⟩
    | some c =>
      some ⟨c.bom, c.lines ++
        (if file_size_zero c then ["url"] else []) ++ [py_strip value]⟩

/-- One run of the program (`get_trending`, lines 63-103, followed by
`save_to_csv` as in `main`, lines 320-331), with the fetch/parse
boundary abstracted into the `repositories` argument: load the blocklist
and the history/output file, union them (list append has the same
membership as Python set union), filter the batch, persist the
survivors.  Returns the emitted batch and the new output-file state. -/
def run_scraper (blockFs outFs : Option CsvFile) (repositories : List Repo) :
    List Repo × Option CsvFile :=
  let blocklist := _load_blocklist blockFs
  let history_urls := _load_blocklist outFs
  let existed_urls := blocklist ++ history_urls
  let filtered := filter_repositories existed_urls repositories []
  (filtered, (save_to_csv filtered outFs).1)

/-- Possible outcomes of physically reading the blocklist/history file,
making row-level failures explicit: the read can succeed, the file can
be absent, an `OSError` can interrupt the row loop after some fields
were already read, or a `UnicodeDecodeError` (which in Python is a
`ValueError`, not an `OSError`) can interrupt it. -/
inductive ReadOutcome where
  | absent
  | fileOk (file : CsvFile)
  | osError (partialFields : List String)
  | decodeError (partialFields : List String)
deriving DecidableEq, Repr

/-- `_load_blocklist` (lines 165-195) over a physical read outcome.  The
`try`/`except OSError` (lines 180-193) converts an `OSError` into a
printed warning and returns the set built so far; a
`UnicodeDecodeError` raised while the row loop decodes the file matches
no `except` clause and escapes the function, modelled as `.error`. -/
def load_blocklist_outcome : ReadOutcome → Except String (List String)
  | .absent => .ok []
  | .fileOk c => .ok (load_rows (read_fields c) [])
  | .osError part => .ok (load_rows part [])
  | .decodeError _ => .error "UnicodeDecodeError"

/-- The history-file load of `get_trending` (lines 66-74): the
surrounding `except Exception` turns any failure into the empty set. -/
def history_urls_of (r : ReadOutcome) : List String :=
  match load_blocklist_outcome r with
  | .ok s => s
  | .error _ => []

/-- The seen-set assembly of `get_trending` (lines 63-76): the blocklist
load at line 64 sits outside every `try` of `get_trending`, so an
exception it raises propagates out of the function, while the history
load degrades to the empty set. -/
def existed_urls_outcome (blockR histR : ReadOutcome) :
    Except String (List String) :=
  match load_blocklist_outcome blockR with
  | .error e => .error e
  | .ok bl => .ok (bl ++ history_urls_of histR)

/-! Helper lemmas about the loader's row loop. -/

theorem load_rows_append (l1 l2 acc : List String) :
    load_rows (l1 ++ l2) acc = load_rows l2 (load_rows l1 acc) := by
  induction l1 generalizing acc with
  | nil => rfl
  | cons r rest ih =>
    simp only [List.cons_append, load_rows]
    split_ifs <;> exact ih _

theorem load_rows_mono (l : List String) (acc : List String) (x : String)
    (h : x ∈ acc) : x ∈ load_rows l acc := by
  induction l generalizing acc with
  | nil => exact h
  | cons r rest ih =>
    simp only [load_rows]
    split_ifs <;> [exact ih _ h; exact ih _ h; exact ih _ h;
      exact ih _ (List.mem_cons_of_mem _ h)]

theorem load_rows_mem_of (l : List String) (acc : List String) (x : String)
    (hx : x ∈ l) (h1 : py_strip x ≠ "") (h2 : py_lower (py_strip x) ≠ "url") :
    py_strip x ∈ load_rows l acc := by
  induction l generalizing acc with
  | nil => cases hx
  | cons r rest ih =>
    rcases List.mem_cons.1 hx with rfl | hx'
    · simp only [load_rows]
      split_ifs with g1 g2 g3
      · exact absurd g1 h1
      · exact absurd g2.1 h2
      · exact load_rows_mono _ _ _ g3
      · exact load_rows_mono _ _ _ (List.mem_cons_self _ _)
    · simp only [load_rows]
      split_ifs <;> exact ih _ hx'

/-! Helper lemmas about the batch filter of `get_trending`. -/

theorem filter_repositories_sublist (existed_urls : List String)
    (l : List Repo) (seen : List String) :
    (filter_repositories existed_urls l seen).Sublist l := by
  induction l generalizing seen with
  | nil => exact List.Sublist.refl _
  | cons repo rest ih =>
    simp only [filter_repositories]
    cases hr : repo.url with
    | none => exact (ih seen).cons repo
    | some u =>
      dsimp only
      split_ifs
      · exact (ih seen).cons repo
      · exact (ih seen).cons repo
      · exact (ih seen).cons repo
      · exact (ih (u :: seen)).cons₂ repo

theorem filter_repositories_mem (existed_urls : List String)
    (l : List Repo) (seen : List String) (r : Repo)
    (h : r ∈ filter_repositories existed_urls l seen) :
    ∃ u, r.url = some u ∧ u ≠ "" ∧ u ∉ existed_urls ∧ u ∉ seen := by
  induction l generalizing seen with
  | nil => cases h
  | cons repo rest ih =>
    simp only [filter_repositories] at h
    cases hr : repo.url with
    | none => exact ih seen (by rwa [hr] at h)
    | some u =>
      rw [hr] at h
      dsimp only at h
      split_ifs at h with g1 g2 g3
      · exact ih seen h
      · exact ih seen h
      · exact ih seen h
      · rcases List.mem_cons.1 h with rfl | h'
        · exact ⟨u, hr, g1, g2, g3⟩
        · rcases ih (u :: seen) h' with ⟨u', hu', h1, h2, h3⟩
          exact ⟨u', hu', h1, h2, fun hmem => h3 (List.mem_cons_of_mem _ hmem)⟩

theorem filter_repositories_nodup (existed_urls : List String)
    (l : List Repo) (seen : List String) :
    ((filter_repositories existed_urls l seen).filterMap Repo.url).Nodup := by
  induction l generalizing seen with
  | nil => exact List.nodup_nil
  | cons repo rest ih =>
    simp only [filter_repositories]
    cases hr : repo.url with
    | none => exact ih seen
    | some u =>
      dsimp only
      split_ifs
      · exact ih seen
      · exact ih seen
      · exact ih seen
      · simp only [List.filterMap_cons, hr]
        refine List.Nodup.cons ?_ (ih (u :: seen))
        intro hu
        rcases List.mem_filterMap.1 hu with ⟨r', hr', hur'⟩
        rcases filter_repositories_mem existed_urls rest (u :: seen) r' hr'
          with ⟨u', hu', _, _, h3⟩
        rw [hu'] at hur'
        exact h3 (Option.some_inj.1 hur' ▸ List.mem_cons_self _ _)

theorem filter_repositories_first (existed_urls : List String)
    (l1 : List Repo) (seen : List String) (r : Repo) (l2 : List Repo)
    (u : String) (hu : r.url = some u) (h1 : u ≠ "") (h2 : u ∉ existed_urls)
    (h3 : u ∉ seen) (h4 : ∀ r2 ∈ l1, r2.url ≠ some u) :
    r ∈ filter_repositories existed_urls (l1 ++ r :: l2) seen := by
  induction l1 generalizing seen with
  | nil =>
    simp only [List.nil_append, filter_repositories, hu]
    rw [if_neg h1, if_neg h2, if_neg h3]
    exact List.mem_cons_self _ _
  | cons r2 l1' ih =>
    simp only [List.cons_append, filter_repositories]
    cases hr2 : r2.url with
    | none => exact ih seen h3 (fun x hx => h4 x (List.mem_cons_of_mem _ hx))
    | some u2 =>
      have hne : u2 ≠ u := by
        intro heq
        exact h4 r2 (List.mem_cons_self _ _) (by rw [hr2, heq])
      dsimp only
      split_ifs
      · exact ih seen h3 (fun x hx => h4 x (List.mem_cons_of_mem _ hx))
      · exact ih seen h3 (fun x hx => h4 x (List.mem_cons_of_mem _ hx))
      · exact ih seen h3 (fun x hx => h4 x (List.mem_cons_of_mem _ hx))
      · refine List.mem_cons_of_mem _ (ih (u2 :: seen) ?_
          (fun x hx => h4 x (List.mem_cons_of_mem _ hx)))
        intro hmem
        rcases List.mem_cons.1 hmem with heq | hmem'
        · exact hne heq.symm
        · exact h3 hmem'

/-! Helper lemmas about the within-batch dedup of `save_to_csv`. -/

theorem unique_data_mem (l : List Repo) (seen : List String) (u : String)
    (h : u ∈ unique_data l seen) :
    u ≠ "" ∧ u ∉ seen ∧ ∃ r ∈ l, r.url = some u := by
  induction l generalizing seen with
  | nil => cases h
  | cons item rest ih =>
    simp only [unique_data] at h
    cases hr : item.url with
    | none =>
      rw [hr] at h
      obtain ⟨h1, h2, r, hrl, hru⟩ := ih seen h
      exact ⟨h1, h2, r, List.mem_cons_of_mem _ hrl, hru⟩
    | some u0 =>
      rw [hr] at h
      dsimp only at h
      split_ifs at h with g1 g2
      · obtain ⟨h1, h2, r, hrl, hru⟩ := ih seen h
        exact ⟨h1, h2, r, List.mem_cons_of_mem _ hrl, hru⟩
      · obtain ⟨h1, h2, r, hrl, hru⟩ := ih seen h
        exact ⟨h1, h2, r, List.mem_cons_of_mem _ hrl, hru⟩
      · rcases List.mem_cons.1 h with rfl | h'
        · exact ⟨g1, g2, item, List.mem_cons_self _ _, hr⟩
        · obtain ⟨h1, h2, r, hrl, hru⟩ := ih (u0 :: seen) h'
          exact ⟨h1, fun hm => h2 (List.mem_cons_of_mem _ hm), r,
            List.mem_cons_of_mem _ hrl, hru⟩

theorem unique_data_nodup (l : List Repo) (seen : List String) :
    (unique_data l seen).Nodup := by
  induction l generalizing seen with
  | nil => exact List.nodup_nil
  | cons item rest ih =>
    simp only [unique_data]
    cases hr : item.url with
    | none => exact ih seen
    | some u0 =>
      dsimp only
      split_ifs
      · exact ih seen
      · exact ih seen
      · refine List.Nodup.cons ?_ (ih (u0 :: seen))
        intro hmem
        obtain ⟨_, h2, _⟩ := unique_data_mem rest (u0 :: seen) u0 hmem
        exact h2 (List.mem_cons_self _ _)

theorem unique_data_eq_filterMap (l : List Repo) (seen : List String)
    (hvalid : ∀ r ∈ l, ∃ u, r.url = some u ∧ u ≠ "")
    (hnodup : (l.filterMap Repo.url).Nodup)
    (hseen : ∀ r ∈ l, ∀ u, r.url = some u → u ∉ seen) :
    unique_data l seen = l.filterMap Repo.url := by
  induction l generalizing seen with
  | nil => rfl
  | cons item rest ih =>
    obtain ⟨u, hu, hne⟩ := hvalid item (List.mem_cons_self _ _)
    simp only [unique_data, List.filterMap_cons, hu]
    rw [if_neg hne, if_neg (hseen item (List.mem_cons_self _ _) u hu)]
    simp only [List.filterMap_cons, hu] at hnodup
    have hnd := List.nodup_cons.1 hnodup
    refine congrArg (u :: ·) (ih (u :: seen)
      (fun r hr => hvalid r (List.mem_cons_of_mem _ hr)) hnd.2 ?_)
    intro r hr u' hu' hmem
    rcases List.mem_cons.1 hmem with rfl | hmem'
    · exact hnd.1 (List.mem_filterMap.2 ⟨r, hr, hu'⟩)
    · exact hseen r (List.mem_cons_of_mem _ hr) u' hu' hmem'

/-- Closed-form characterization of `save_to_csv`: nothing happens when
the deduplicated batch is empty; a fresh target is created with a BOM
and exactly the deduplicated urls; a populated target is appended to. -/
theorem save_to_csv_spec (data : List Repo) (fs : Option CsvFile) :
    save_to_csv data fs =
      if unique_data data [] = [] then (fs, false)
      else
        match fs with
        | none => (some ⟨true, unique_data data []⟩, true)
        | some c =>
          if file_size_zero c then (some ⟨true, unique_data data []⟩, true)
          else (some ⟨c.bom, c.lines ++ unique_data data []⟩, true) := by
  by_cases hd : data = []
  · subst hd
    simp [save_to_csv, unique_data]
  · have hd' : data.isEmpty = false := by
      cases data with
      | nil => exact absurd rfl hd
      | cons a l => rfl
    by_cases hu : unique_data data [] = []
    · simp [save_to_csv, hd', hu]
    · have hu' : (unique_data data []).isEmpty = false := by
        cases h : unique_data data [] with
        | nil => exact absurd h hu
        | cons a l => rfl
      simp [save_to_csv, hd', hu, hu']

theorem list_isEmpty_false_of_ne_nil {α : Type} {l : List α} (h : l ≠ []) :
    l.isEmpty = false := by
  cases l with
  | nil => exact absurd rfl h
  | cons a t => rfl

/-! The claims. -/

/-- C1: the cross-run deduplication invariant FAILS on the code.
`save_to_csv` creates the output file with `encoding='utf-8-sig'` (a
BOM), but `_load_blocklist` re-reads it with plain `encoding='utf-8'`,
so the first line comes back as `U+FEFF ++ url` and never matches the
bare url.  Starting from no blocklist and no output file, fetching the
same single-url batch twice re-emits the url on run 2 and leaves it on
two lines of the output file. -/
theorem run_scraper_reemits_after_bom_write :
    run_scraper none
        ((run_scraper none none [⟨some "https://x/c", ""⟩]).2)
        [⟨some "https://x/c", ""⟩]
      = ([⟨some "https://x/c", ""⟩],
          some ⟨true, ["https://x/c", "https://x/c"]⟩)
    ∧ ((run_scraper none
          ((run_scraper none none [⟨some "https://x/c", ""⟩]).2)
          [⟨some "https://x/c", ""⟩]).2).map
        (fun f => f.lines.count "https://x/c") = some 2 := by
  constructor
  · decide
  · decide

/-- C2: end-to-end filtering: with blocklist file `{https://x/a}` and
history file `{https://x/b}` loaded and unioned, the fetched batch
`[a, b, c, c]` filters down to exactly `[c]`: `a` and `b` are dropped by
the seen-set, the second `c` by within-batch dedup. -/
theorem end_to_end_filter_example :
    filter_repositories
        (_load_blocklist (some ⟨false, ["https://x/a"]⟩) ++
          _load_blocklist (some ⟨false, ["https://x/b"]⟩))
        [⟨some "https://x/a", ""⟩, ⟨some "https://x/b", ""⟩,
          ⟨some "https://x/c", ""⟩, ⟨some "https://x/c", ""⟩] []
      = [⟨some "https://x/c", ""⟩] := by decide

/-- C3: the deduplicator is a stable filter: the output is a sublist of
the input batch (relative order preserved), every kept record has a
present, non-empty identifier outside the seen-set, kept identifiers are
pairwise distinct (so only one occurrence per identifier survives), and
the first valid occurrence of each identifier is kept. -/
theorem filter_repositories_stable_filter (existed_urls : List String)
    (batch : List Repo) :
    (filter_repositories existed_urls batch []).Sublist batch
    ∧ (∀ r ∈ filter_repositories existed_urls batch [],
        ∃ u, r.url = some u ∧ u ≠ "" ∧ u ∉ existed_urls)
    ∧ ((filter_repositories existed_urls batch []).filterMap Repo.url).Nodup
    ∧ (∀ l1 r l2 u, batch = l1 ++ r :: l2 → r.url = some u → u ≠ "" →
        u ∉ existed_urls → (∀ r2 ∈ l1, r2.url ≠ some u) →
        r ∈ filter_repositories existed_urls batch []) := by
  refine ⟨filter_repositories_sublist _ _ _, ?_,
    filter_repositories_nodup _ _ _, ?_⟩
  · intro r hr
    obtain ⟨u, h1, h2, h3, _⟩ := filter_repositories_mem _ _ _ _ hr
    exact ⟨u, h1, h2, h3⟩
  · intro l1 r l2 u hb hu h1 h2 h4
    subst hb
    exact filter_repositories_first _ _ _ _ _ _ hu h1 h2
      (List.not_mem_nil _) h4

theorem filter_repositories_stable_filter_witness :
    Repo.mk (some "https://x/b") "" ∈
      filter_repositories ["https://x/a"]
        [⟨some "https://x/a", ""⟩, ⟨some "https://x/b", ""⟩] [] :=
  (filter_repositories_stable_filter ["https://x/a"]
      [⟨some "https://x/a", ""⟩, ⟨some "https://x/b", ""⟩]).2.2.2
    [⟨some "https://x/a", ""⟩] ⟨some "https://x/b", ""⟩ [] "https://x/b"
    rfl rfl (by decide) (by decide) (by decide)

/-- C4 counterexample: persist is NOT idempotent on file contents —
`save_to_csv` never consults the existing file, so running the same
one-record batch through it twice leaves the identifier on two lines. -/
theorem save_to_csv_twice_duplicates :
    (save_to_csv [⟨some "https://x/a", ""⟩]
        ((save_to_csv [⟨some "https://x/a", ""⟩] none).1)).1
      = some ⟨true, ["https://x/a", "https://x/a"]⟩ := by decide

/-- C4 amended: for every batch with at least one surviving record and
every initial state, the second identical persist appends the whole
deduplicated batch once more (it does not leave the file at one line per
identifier). -/
theorem save_to_csv_twice_appends (data : List Repo) (fs : Option CsvFile)
    (h : unique_data data [] ≠ []) :
    ∃ c1, (save_to_csv data fs).1 = some c1 ∧
      (save_to_csv data ((save_to_csv data fs).1)).1
        = some ⟨c1.bom, c1.lines ++ unique_data data []⟩ := by
  have hspec := save_to_csv_spec data fs
  rw [if_neg h] at hspec
  have second : ∀ c1 : CsvFile, c1.lines ≠ [] →
      (save_to_csv data (some c1)).1
        = some ⟨c1.bom, c1.lines ++ unique_data data []⟩ := by
    intro c1 hc1
    have hs2 := save_to_csv_spec data (some c1)
    rw [if_neg h] at hs2
    dsimp only at hs2
    have hz : file_size_zero c1 = false := by
      simp [file_size_zero, list_isEmpty_false_of_ne_nil hc1]
    rw [hz] at hs2
    simp only [Bool.false_eq_true, if_false] at hs2
    rw [hs2]
  cases fs with
  | none =>
    rw [hspec]
    exact ⟨⟨true, unique_data data []⟩, rfl, second _ h⟩
  | some c =>
    dsimp only at hspec
    by_cases hz : file_size_zero c
    · rw [if_pos hz] at hspec
      rw [hspec]
      exact ⟨⟨true, unique_data data []⟩, rfl, second _ h⟩
    · rw [if_neg hz] at hspec
      rw [hspec]
      refine ⟨⟨c.bom, c.lines ++ unique_data data []⟩, rfl, second _ ?_⟩
      intro hq
      exact h (List.append_eq_nil.1 hq).2

theorem save_to_csv_twice_appends_witness :
    ∃ c1, (save_to_csv [⟨some "https://x/a", ""⟩] none).1 = some c1 ∧
      (save_to_csv [⟨some "https://x/a", ""⟩]
          ((save_to_csv [⟨some "https://x/a", ""⟩] none).1)).1
        = some ⟨c1.bom,
            c1.lines ++ unique_data [⟨some "https://x/a", ""⟩] []⟩ :=
  save_to_csv_twice_appends [⟨some "https://x/a", ""⟩] none (by decide)

/-- C5: the append-safe two-mode write: for a non-empty, already
deduplicated batch (every record carries a non-empty identifier and
identifiers are pairwise distinct), a fresh target (absent or size zero)
is created with a BOM and one identifier per line, while a populated
target is appended to — no BOM is (re)introduced and every prior line
survives unchanged as a prefix of the new contents. -/
theorem save_to_csv_two_mode (data : List Repo) (fs : Option CsvFile)
    (hne : data ≠ [])
    (hvalid : ∀ r ∈ data, ∃ u, r.url = some u ∧ u ≠ "")
    (hnodup : (data.filterMap Repo.url).Nodup) :
    (file_empty fs = true →
      (save_to_csv data fs).1 = some ⟨true, data.filterMap Repo.url⟩)
    ∧ (∀ c, fs = some c → file_empty fs = false →
      (save_to_csv data fs).1
        = some ⟨c.bom, c.lines ++ data.filterMap Repo.url⟩) := by
  have hueq : unique_data data [] = data.filterMap Repo.url :=
    unique_data_eq_filterMap data [] hvalid hnodup
      (fun r hr u hu hmem => List.not_mem_nil u hmem)
  have hune : unique_data data [] ≠ [] := by
    rw [hueq]
    cases data with
    | nil => exact absurd rfl hne
    | cons r rest =>
      obtain ⟨u, hu, _⟩ := hvalid r (List.mem_cons_self _ _)
      simp [List.filterMap_cons, hu]
  have hspec := save_to_csv_spec data fs
  rw [if_neg hune] at hspec
  constructor
  · intro hfe
    cases fs with
    | none =>
      rw [hspec, hueq]
    | some c =>
      simp only [file_empty] at hfe
      dsimp only at hspec
      rw [if_pos hfe] at hspec
      rw [hspec, hueq]
  · intro c hc hfe
    subst hc
    simp only [file_empty] at hfe
    dsimp only at hspec
    rw [hfe] at hspec
    simp only [Bool.false_eq_true, if_false] at hspec
    rw [hspec, hueq]

theorem save_to_csv_two_mode_witness :
    (save_to_csv [⟨some "https://x/a", ""⟩] none).1
      = some ⟨true, ["https://x/a"]⟩ := by
  have h := (save_to_csv_two_mode [⟨some "https://x/a", ""⟩] none
    (by decide)
    (by
      intro r hr
      rcases List.mem_singleton.1 hr with rfl
      exact ⟨"https://x/a", rfl, by decide⟩)
    (by decide)).1 rfl
  exact h.trans (by decide)

/-- C6 counterexample: the header rule is NOT first-row-only.  On the
file contents `url\nurl\nA\n` the second `url` row is not the first
non-blank row, yet the loader still skips it (the accumulated set is
still empty), so `"url"` is absent from the result — the claim would
keep it as data. -/
theorem load_blocklist_header_skip_repeats :
    _load_blocklist (some ⟨false, ["url", "url", "A"]⟩) = ["A"]
    ∧ "url" ∉ _load_blocklist (some ⟨false, ["url", "url", "A"]⟩) := by
  decide

/-- C6 amended: a row whose trimmed value case-insensitively equals
`"url"` is skipped exactly while the accumulated set is still empty —
i.e. while every preceding row was blank or also a header token; as soon
as some data value has been accepted, later `"url"` rows are kept as
data.  In particular the loader on `A\nurl\n` returns `{A, url}`. -/
theorem load_blocklist_header_while_empty (pre post : List String) :
    (_load_blocklist (some ⟨false, pre⟩) ≠ [] →
      "url" ∈ _load_blocklist (some ⟨false, pre ++ "url" :: post⟩))
    ∧ (_load_blocklist (some ⟨false, pre⟩) = [] →
      _load_blocklist (some ⟨false, pre ++ "url" :: post⟩)
        = _load_blocklist (some ⟨false, pre ++ post⟩))
    ∧ _load_blocklist (some ⟨false, ["A", "url"]⟩) = ["url", "A"] := by
  refine ⟨?_, ?_, by decide⟩
  · intro hne
    simp only [_load_blocklist, read_fields] at hne ⊢
    rw [load_rows_append]
    simp only [load_rows,
      show py_strip "url" = "url" from by decide,
      show py_lower "url" = "url" from by decide]
    rw [if_neg (by decide : ¬("url" : String) = ""),
      if_neg (fun hand => hne hand.2)]
    by_cases hm : ("url" : String) ∈ load_rows pre []
    · rw [if_pos hm]
      exact load_rows_mono _ _ _ hm
    · rw [if_neg hm]
      exact load_rows_mono _ _ _ (List.mem_cons_self _ _)
  · intro hz
    simp only [_load_blocklist, read_fields] at hz ⊢
    rw [load_rows_append, load_rows_append, hz]
    simp only [load_rows,
      show py_strip "url" = "url" from by decide,
      show py_lower "url" = "url" from by decide]
    rw [if_neg (by decide : ¬("url" : String) = ""), if_pos (by simp)]

theorem load_blocklist_header_while_empty_witness :
    "url" ∈ _load_blocklist (some ⟨false, ["A", "url"]⟩) :=
  (load_blocklist_header_while_empty ["A"] []).1 (by decide)

/-- C7 counterexample: the blocklist mutator is NOT idempotent for every
value.  For the value `"url"` (case-insensitively the header token) the
loader skips both written rows, so the second call fails the membership
test and writes again: the file ends with three `url` lines instead of
gaining exactly one. -/
theorem add_to_blocklist_url_not_idempotent :
    add_to_blocklist "url" none = some ⟨false, ["url", "url"]⟩
    ∧ add_to_blocklist "url" (add_to_blocklist "url" none)
        = some ⟨false, ["url", "url", "url"]⟩ := by decide

/-- C7 amended: for every already-trimmed, non-empty value that is not
case-insensitively the header token `"url"`, and every initial blocklist
file without a leading BOM (the mutator itself never writes one), the
second call is a no-op: the file state after two calls equals the state
after one, so the file gains exactly the first call's single data
line.  (Header-token values are excluded by the counterexample; a
BOM-prefixed file defeats the loader's membership test the same way.) -/
theorem add_to_blocklist_idempotent (value : String) (fs : Option CsvFile)
    (h1 : py_strip value = value) (h2 : value ≠ "")
    (h3 : py_lower value ≠ "url") (h4 : ∀ c, fs = some c → c.bom = false) :
    add_to_blocklist value (add_to_blocklist value fs)
      = add_to_blocklist value fs := by
  by_cases hmem : value ∈ _load_blocklist fs
  · have hfs : add_to_blocklist value fs = fs := by
      simp only [add_to_blocklist, h1]
      rw [if_neg h2, if_pos hmem]
    rw [hfs, hfs]
  · have hmem2 : ∀ ls : List String, value ∈ ls →
        value ∈ _load_blocklist (some ⟨false, ls⟩) := by
      intro ls hls
      have := load_rows_mem_of ls [] value hls
        (by rw [h1]; exact h2) (by rw [h1]; exact h3)
      rw [h1] at this
      exact this
    cases fs with
    | none =>
      have hf1 : add_to_blocklist value none = some ⟨false, ["url", value]⟩ := by
        simp only [add_to_blocklist, h1]
        rw [if_neg h2, if_neg hmem]
      rw [hf1]
      simp only [add_to_blocklist, h1]
      rw [if_neg h2,
        if_pos (hmem2 ["url", value]
          (List.mem_cons_of_mem _ (List.mem_cons_self _ _)))]
    | some c =>
      have hbom : c.bom = false := h4 c rfl
      have hf1 : add_to_blocklist value (some c)
          = some ⟨c.bom, c.lines ++
              (if file_size_zero c then ["url"] else []) ++ [value]⟩ := by
        simp only [add_to_blocklist, h1]
        rw [if_neg h2, if_neg hmem]
      rw [hf1]
      simp only [add_to_blocklist, h1]
      rw [if_neg h2, if_pos (by
        rw [hbom]
        exact hmem2 _ (by
          simp only [List.append_assoc, List.mem_append]
          exact Or.inr (Or.inr (List.mem_singleton.2 rfl))))]

theorem add_to_blocklist_idempotent_witness :
    add_to_blocklist "https://x/a" (add_to_blocklist "https://x/a" none)
      = add_to_blocklist "https://x/a" none :=
  add_to_blocklist_idempotent "https://x/a" none (by decide) (by decide)
    (by decide) (fun c hc => Option.noConfusion hc)

/-- C8 counterexample: the loader DOES propagate encoding failures.  A
`UnicodeDecodeError` raised while the row loop decodes the file matches
no `except OSError` clause, so `_load_blocklist` raises past its caller
and the partial rows are discarded; since the blocklist load in
`get_trending` (line 64) sits outside every `try`, the whole run aborts
instead of degrading to an empty set. -/
theorem load_blocklist_decode_error_raises :
    load_blocklist_outcome (.decodeError ["https://x/a"])
      = .error "UnicodeDecodeError"
    ∧ existed_urls_outcome (.decodeError ["https://x/a"]) .absent
        = .error "UnicodeDecodeError" :=
  ⟨rfl, rfl⟩

/-- C8 amended: a row-level `OSError` is caught — the loader warns and
returns the partial set already read, raising nothing; any failure of
the history-file load degrades to the empty set inside `get_trending`;
but a row-level `UnicodeDecodeError` is not caught and propagates out of
the loader. -/
theorem loader_error_handling (part : List String) (r : ReadOutcome) :
    load_blocklist_outcome (.osError part) = .ok (load_rows part [])
    ∧ (∀ e, load_blocklist_outcome r = .error e → history_urls_of r = [])
    ∧ (∃ e, load_blocklist_outcome (.decodeError part) = .error e) := by
  refine ⟨rfl, ?_, "UnicodeDecodeError", rfl⟩
  intro e he
  simp only [history_urls_of, he]

theorem loader_error_handling_witness :
    load_blocklist_outcome (.osError ["https://x/a"]) = .ok ["https://x/a"]
    ∧ history_urls_of (.decodeError ["https://x/b"]) = [] := by
  constructor
  · exact (loader_error_handling ["https://x/a"] .absent).1.trans
      (congrArg Except.ok (by decide))
  · exact (loader_error_handling [] (.decodeError ["https://x/b"])).2.1
      "UnicodeDecodeError" rfl

/-- C9: persisting an empty batch performs no file operation at all —
the output-file state is returned unchanged (neither created nor
modified) and the caller is told nothing was written. -/
theorem save_to_csv_empty_batch (fs : Option CsvFile) :
    save_to_csv [] fs = (fs, false) := rfl

/-- C10: the persister re-filters its input independently of the caller:
the urls it writes are pairwise distinct (each surviving identifier is
written at most once per call) and come from records of the input with
non-empty identifiers; when nothing survives the filtering — even for a
non-empty input batch — no file operation happens; when something
survives, the write either creates a BOM-fresh file holding exactly the
surviving urls or appends exactly them to a populated file. -/
theorem save_to_csv_refilters (data : List Repo) (fs : Option CsvFile) :
    (unique_data data []).Nodup
    ∧ (∀ u ∈ unique_data data [], u ≠ "" ∧ ∃ r ∈ data, r.url = some u)
    ∧ (unique_data data [] = [] → save_to_csv data fs = (fs, false))
    ∧ (unique_data data [] ≠ [] →
        (save_to_csv data fs).2 = true
        ∧ ((save_to_csv data fs).1 = some ⟨true, unique_data data []⟩
          ∨ ∃ c, fs = some c ∧ file_size_zero c = false
              ∧ (save_to_csv data fs).1
                  = some ⟨c.bom, c.lines ++ unique_data data []⟩)) := by
  refine ⟨unique_data_nodup _ _, ?_, ?_, ?_⟩
  · intro u hu
    obtain ⟨hu1, _, hr⟩ := unique_data_mem data [] u hu
    exact ⟨hu1, hr⟩
  · intro hz
    rw [save_to_csv_spec, if_pos hz]
  · intro hnz
    rw [save_to_csv_spec, if_neg hnz]
    cases fs with
    | none => exact ⟨rfl, Or.inl rfl⟩
    | some c =>
      dsimp only
      by_cases hsz : file_size_zero c
      · rw [if_pos hsz]
        exact ⟨rfl, Or.inl rfl⟩
      · rw [if_neg hsz]
        exact ⟨rfl, Or.inr ⟨c, rfl, Bool.not_eq_true _ ▸ hsz, rfl⟩⟩

theorem save_to_csv_refilters_witness :
    save_to_csv [⟨none, "no url key"⟩, ⟨some "", "empty url"⟩] none
      = (none, false) :=
  (save_to_csv_refilters [⟨none, "no url key"⟩, ⟨some "", "empty url"⟩]
    none).2.2.1 (by decide)
